import Mathlib

/-!
Shallow embedding of the pair-counting core of the picca repository
(src/py/picca/co.py and src/py/picca/data.py).

Conventions of the embedding:
* Floating-point values are modelled by exact rationals `ℚ`; the real-valued
  trigonometric primitives used by the source (`sp.cos`, `sp.sin`,
  `sp.arccos`, `sp.sqrt`) are passed as explicit function parameters
  (`cosv`, `sinv`, `arccosv`, `sqrtv`), since every claim about the
  pair-counting code is about the arithmetic downstream of those calls.
  The construction-time trigonometry of `Qso.__init__` (data.py) is
  modelled over `ℝ` with `Real.cos`/`Real.sin` where the trigonometric
  identity itself matters.
* Numpy arrays of per-pair data become Lean lists; `np.bincount` output
  becomes a total function from the bin index `ℤ` to the accumulated value.
* The healpy call `query_disc` and the global configuration values
  (`rp_min`, `npb`, `z_cut_min`, ..., set at run time by callers outside
  this module) become explicit parameters.
* Python dictionaries (`objs`, `objs2`) become `ℕ → Option (List ObjCore)`,
  with `none` modelling an absent key; an operation that would raise
  `KeyError` is modelled as returning `none`.
-/

/-- One tracer object as used by the pair-counting pass: the scalar fields
of `Qso` (data.py) that `co.py` reads (`thingid`, angular position, cached
cartesian coordinates, redshift, comoving distances, weight). -/
structure ObjCore where
  thingid : ℤ
  ra : ℚ
  dec : ℚ
  x_cart : ℚ
  y_cart : ℚ
  z_cart : ℚ
  cos_dec : ℚ
  z_qso : ℚ
  r_comov : ℚ
  rdm_comov : ℚ
  we : ℚ
deriving DecidableEq

/-- The per-neighbor data that `co` (co.py lines 67-72) gathers before
calling `fast_co`: redshift, radial and transverse comoving distance,
weight of the neighbor, and the angular separation to the reference
object. -/
structure PairIn where
  z2 : ℚ
  r2 : ℚ
  rdm2 : ℚ
  w2 : ℚ
  ang : ℚ
deriving DecidableEq

/-- The module-level configuration globals of co.py
(`npb`, `ntb`, `rp_min`, `rp_max`, `rt_max`, `x_correlation`, `type_corr`). -/
structure CoCfg where
  npb : ℕ
  ntb : ℕ
  rp_min : ℚ
  rp_max : ℚ
  rt_max : ℚ
  x_correlation : Bool
  type_corr : String

/-- The five accumulator arrays of co.py (`we`, `rp`, `rt`, `z`, `nb`),
modelled as total functions from the flat bin index. -/
@[ext]
structure HistGrid where
  we : ℤ → ℚ
  rp : ℤ → ℚ
  rt : ℤ → ℚ
  z : ℤ → ℚ
  nb : ℤ → ℕ

/-- Numpy `astype(int)` on a float value: truncation toward zero. -/
def truncQ (q : ℚ) : ℤ := if 0 ≤ q then ⌊q⌋ else ⌈q⌉

/-- co.py line 90 and lines 91-92: `rp = (r1-r2)*cos(ang/2)`, replaced by
its absolute value when `not x_correlation or type_corr in ['DR','RD']`. -/
def rpOf (cfg : CoCfg) (cosv : ℚ → ℚ) (r1 : ℚ) (p : PairIn) : ℚ :=
  let rp := (r1 - p.r2) * cosv (p.ang / 2)
  if cfg.x_correlation = false ∨ cfg.type_corr = "DR" ∨ cfg.type_corr = "RD" then |rp| else rp

/-- co.py line 93: `rt = (rdm1+rdm2)*sin(ang/2)`. -/
def rtOf (sinv : ℚ → ℚ) (rdm1 : ℚ) (p : PairIn) : ℚ :=
  (rdm1 + p.rdm2) * sinv (p.ang / 2)

/-- co.py line 94: `z = (z1+z2)/2`. -/
def zOf (z1 : ℚ) (p : PairIn) : ℚ := (z1 + p.z2) / 2

/-- co.py line 95: `w12 = w1*w2`. -/
def w12Of (w1 : ℚ) (p : PairIn) : ℚ := w1 * p.w2

/-- co.py line 97: the selection mask
`(rp>=rp_min) & (rp<rp_max) & (rt<rt_max) & (w12>0.)`. -/
def maskOf (cfg : CoCfg) (cosv sinv : ℚ → ℚ) (r1 rdm1 w1 : ℚ) (p : PairIn) : Bool :=
  decide (cfg.rp_min ≤ rpOf cfg cosv r1 p ∧ rpOf cfg cosv r1 p < cfg.rp_max ∧
    rtOf sinv rdm1 p < cfg.rt_max ∧ 0 < w12Of w1 p)

/-- co.py line 103: `bp = sp.floor((rp-rp_min)/(rp_max-rp_min)*npb).astype(int)`
(the `astype(int)` acts on an already-integral float, so this is a floor). -/
def bpOf (cfg : CoCfg) (cosv : ℚ → ℚ) (r1 : ℚ) (p : PairIn) : ℤ :=
  ⌊(rpOf cfg cosv r1 p - cfg.rp_min) / (cfg.rp_max - cfg.rp_min) * cfg.npb⌋

/-- co.py line 104: `bt = (rt/rt_max*ntb).astype(int)` — a plain cast,
i.e. truncation toward zero, with no floor applied first. -/
def btOf (cfg : CoCfg) (sinv : ℚ → ℚ) (rdm1 : ℚ) (p : PairIn) : ℤ :=
  truncQ (rtOf sinv rdm1 p / cfg.rt_max * cfg.ntb)

/-- co.py line 105: `bins = bt + ntb*bp`. -/
def binOf (cfg : CoCfg) (cosv sinv : ℚ → ℚ) (r1 rdm1 : ℚ) (p : PairIn) : ℤ :=
  btOf cfg sinv rdm1 p + cfg.ntb * bpOf cfg cosv r1 p

/-- co.py lines 88-113, `fast_co`: filter the pairs by the selection mask,
compute the flat bin of each surviving pair, and accumulate the five
`bincount` outputs (weights `w12`, `rp*w12`, `rt*w12`, `z*w12`, and the
raw count). -/
def fast_co (cfg : CoCfg) (cosv sinv : ℚ → ℚ) (z1 r1 rdm1 w1 : ℚ)
    (pairs : List PairIn) : HistGrid :=
  let kept := pairs.filter (maskOf cfg cosv sinv r1 rdm1 w1)
  { we := fun b =>
      (((kept.filter (fun p => binOf cfg cosv sinv r1 rdm1 p = b)).map
        (fun p => w12Of w1 p)).sum)
    rp := fun b =>
      (((kept.filter (fun p => binOf cfg cosv sinv r1 rdm1 p = b)).map
        (fun p => rpOf cfg cosv r1 p * w12Of w1 p)).sum)
    rt := fun b =>
      (((kept.filter (fun p => binOf cfg cosv sinv r1 rdm1 p = b)).map
        (fun p => rtOf sinv rdm1 p * w12Of w1 p)).sum)
    z := fun b =>
      (((kept.filter (fun p => binOf cfg cosv sinv r1 rdm1 p = b)).map
        (fun p => zOf z1 p * w12Of w1 p)).sum)
    nb := fun b =>
      (kept.filter (fun p => binOf cfg cosv sinv r1 rdm1 p = b)).length }

/-- data.py lines 87-110, the batch branch of `Qso.__xor__`: dot products
with the reference object, clamping of cosines at 1 (then at -1), arccos,
and the flat-sky overwrite for candidates within the small-angle cutoff in
both coordinates. -/
def xorBatch (arccosv sqrtv : ℚ → ℚ) (eps : ℚ) (self : ObjCore)
    (data : List ObjCore) : List ℚ :=
  let cosl := data.map (fun d =>
    d.x_cart * self.x_cart + d.y_cart * self.y_cart + d.z_cart * self.z_cart)
  let cosl := cosl.map (fun c => if 1 ≤ c then 1 else c)
  let cosl := cosl.map (fun c => if c ≤ -1 then -1 else c)
  let angl := cosl.map arccosv
  List.zipWith (fun d a =>
    if |d.ra - self.ra| < eps ∧ |d.dec - self.dec| < eps then
      sqrtv ((d.dec - self.dec) ^ 2 + (self.cos_dec * (d.ra - self.ra)) ^ 2)
    else a) data angl

/-- data.py lines 112-130, the scalar branch of `Qso.__xor__`: the same
computation for a single candidate, with the clamp written as an
if/elif. -/
def xorScalar (arccosv sqrtv : ℚ → ℚ) (eps : ℚ) (self d : ObjCore) : ℚ :=
  let c := d.x_cart * self.x_cart + d.y_cart * self.y_cart + d.z_cart * self.z_cart
  let c := if 1 ≤ c then 1 else if c ≤ -1 then -1 else c
  let angl := arccosv c
  if |d.ra - self.ra| < eps ∧ |d.dec - self.dec| < eps then
    sqrtv ((d.dec - self.dec) ^ 2 + (self.cos_dec * (d.ra - self.ra)) ^ 2)
  else angl

/-- The `objs[p]` dictionary lookups performed while collecting candidates
(co.py line 32 / line 44): `none` models a `KeyError` on any of the cell
ids, `some` the concatenated contents of the cells. -/
def collectCells (objsMap : ℕ → Option (List ObjCore)) : List ℕ → Option (List ObjCore)
  | [] => some []
  | p :: ps =>
    match objsMap p, collectCells objsMap ps with
    | some os, some rest => some (os ++ rest)
    | _, _ => none

/-- co.py lines 27-36 (`fill_neighs`) and 39-48 (`fill_neighs_x_correlation`)
for one object `o1`: both routines are identical except for the target
catalog (`objs` vs `objs2`), here the parameter `objsMap`; `queried` is the
cell-id list returned by the external `query_disc` call. Keeps the source's
filter order: drop cell ids absent from the catalog, collect candidates of
the remaining cells excluding equal `thingid`, keep angular separations
(computed by the batch `__xor__`) below `angmax`, then apply the
mean-redshift window. -/
def fill_neighs_one (arccosv sqrtv : ℚ → ℚ) (eps angmax zcmin zcmax : ℚ)
    (objsMap : ℕ → Option (List ObjCore)) (queried : List ℕ)
    (o1 : ObjCore) : Option (List ObjCore) :=
  let npix := queried.filter (fun p => (objsMap p).isSome)
  match collectCells objsMap npix with
  | none => none
  | some allObjs =>
    let neighs := allObjs.filter (fun o2 => o1.thingid ≠ o2.thingid)
    let angs := xorBatch arccosv sqrtv eps o1 neighs
    let kept := ((neighs.zip angs).filter (fun x => x.2 < angmax)).map Prod.fst
    some (kept.filter (fun o2 =>
      (o2.z_qso + o1.z_qso) / 2 ≥ zcmin ∧ (o2.z_qso + o1.z_qso) / 2 < zcmax))

/-- The parameters shared by the per-chunk worker `co`: the binning
configuration plus the real-trigonometry primitives of the source. -/
structure CoParams where
  cfg : CoCfg
  cosv : ℚ → ℚ
  sinv : ℚ → ℚ
  arccosv : ℚ → ℚ
  sqrtv : ℚ → ℚ
  eps : ℚ

/-- The all-zero accumulator grid (`np.zeros(npb*ntb)`, co.py lines 52-56). -/
def zeroGrid : HistGrid :=
  { we := fun _ => 0, rp := fun _ => 0, rt := fun _ => 0, z := fun _ => 0,
    nb := fun _ => 0 }

/-- Element-wise addition of accumulator grids (the `+=` merges of
co.py lines 75-79). -/
def addGrid (g h : HistGrid) : HistGrid :=
  { we := fun b => g.we b + h.we b
    rp := fun b => g.rp b + h.rp b
    rt := fun b => g.rt b + h.rt b
    z := fun b => g.z b + h.z b
    nb := fun b => g.nb b + h.nb b }

/-- co.py lines 67-73 for one object `o1` with cached neighbor list `ne`:
recompute the angular separations with the batch `__xor__`, gather the
per-neighbor columns, and run `fast_co`; an empty neighbor list is skipped
(line 65), contributing the zero grid. -/
def objGrid (P : CoParams) (o1 : ObjCore) (ne : List ObjCore) : HistGrid :=
  if ne = [] then zeroGrid
  else
    let angs := xorBatch P.arccosv P.sqrtv P.eps o1 ne
    let pairs := List.zipWith
      (fun o2 a => PairIn.mk o2.z_qso o2.r_comov o2.rdm_comov o2.we a) ne angs
    fast_co P.cfg P.cosv P.sinv o1.z_qso o1.r_comov o1.rdm_comov o1.we pairs

/-- A catalog cell as seen by `co`: the objects of one pixel, each carrying
the neighbor list cached by `fill_neighs`. -/
def Cell := List (ObjCore × List ObjCore)

/-- The accumulation loop of `co` (co.py lines 58-79): fold over the cells
of the chunk and over the objects of each cell, merging each object's
`fast_co` output into the running grid. -/
def rawGrid (P : CoParams) (pix : List Cell) : HistGrid :=
  pix.foldl (fun acc cell =>
    cell.foldl (fun a x => addGrid a (objGrid P x.1 x.2)) acc) zeroGrid

/-- co.py lines 50-86, the per-chunk worker `co`: accumulate the grid over
the chunk's cells, then normalize in place (`rp[w] /= we[w]` etc., lines
82-85) the rp/rt/z accumulators on the bins with positive weight, and
return the five arrays. -/
def co (P : CoParams) (pix : List Cell) : HistGrid :=
  let g := rawGrid P pix
  { we := g.we
    rp := fun b => if 0 < g.we b then g.rp b / g.we b else g.rp b
    rt := fun b => if 0 < g.we b then g.rt b / g.we b else g.rt b
    z := fun b => if 0 < g.we b then g.z b / g.we b else g.z b
    nb := g.nb }

/-- The fields of a `Qso` whose values involve construction-time
trigonometry (data.py lines 56-72), over `ℝ`. -/
structure QsoR where
  thingid : ℤ
  ra : ℝ
  dec : ℝ
  plate : ℤ
  mjd : ℤ
  fiberid : ℤ
  x_cart : ℝ
  y_cart : ℝ
  z_cart : ℝ
  cos_dec : ℝ
  z_qso : ℝ

/-- data.py lines 56-72, `Qso.__init__`: store the angular position and
identifiers, and compute the cartesian unit vector and `cos_dec` once from
`ra` and `dec`. -/
noncomputable def mkQso (thingid : ℤ) (ra dec z_qso : ℝ)
    (plate mjd fiberid : ℤ) : QsoR :=
  { thingid := thingid
    ra := ra
    dec := dec
    plate := plate
    mjd := mjd
    fiberid := fiberid
    x_cart := Real.cos ra * Real.cos dec
    y_cart := Real.sin ra * Real.cos dec
    z_cart := Real.sin dec
    cos_dec := Real.cos dec
    z_qso := z_qso }

/-- The only mutation the pair-counting pass performs on an object: the
`neighs` attribute updates of co.py line 36 (cache the list) and line 80
(drop it). The object's other fields travel unchanged. -/
def setNeighs (s : QsoR × List QsoR) (ne : List QsoR) : QsoR × List QsoR :=
  (s.1, ne)

/-- The per-bin soundness invariant used for the normalization claims: the
accumulated weight at a bin is nonnegative, and if it is zero then the bin
was never touched (all accumulators vanish there). -/
def GoodAt (g : HistGrid) (b : ℤ) : Prop :=
  0 ≤ g.we b ∧ (g.we b = 0 → g.rp b = 0 ∧ g.rt b = 0 ∧ g.z b = 0 ∧ g.nb b = 0)

/-- The grid accumulated by the inner loop of `co` over the objects of a
single cell. -/
def cellGrid (P : CoParams) (cell : Cell) : HistGrid :=
  cell.foldl (fun a x => addGrid a (objGrid P x.1 x.2)) zeroGrid

/-- A small binning configuration: 2x2 bins, rp range [0,2), rt bound 2,
same-catalog run. -/
def cfgS : CoCfg := ⟨2, 2, 0, 2, 2, false, ""⟩

/-- Stand-in for `cos` on the sampled angles: constantly 1 (the value of
the real cosine at angle 0). -/
def cosOne : ℚ → ℚ := fun _ => 1

/-- Stand-in for `sin` on the sampled angles: constantly 0 (the value of
the real sine at angle 0). -/
def sinZero : ℚ → ℚ := fun _ => 0

/-- Stand-in for `cos` at the half-angle `2*atan(4/3)`: constantly 3/5. -/
def cosPyth : ℚ → ℚ := fun _ => 3 / 5

/-- Stand-in for `sin` at the half-angle `2*atan(4/3)`: constantly 4/5. -/
def sinPyth : ℚ → ℚ := fun _ => 4 / 5

/-- A sample neighbor: zero redshift and distances, unit weight. -/
def pairS : PairIn := ⟨0, 0, 0, 1, 0⟩

/-- A sample neighbor with negative transverse comoving distance, used to
exercise the truncation-vs-floor boundary of the transverse bin. -/
def pairNeg : PairIn := ⟨0, 0, -5/8, 1, 0⟩

def pCo : CoParams := ⟨⟨1, 1, 0, 10, 10, false, ""⟩, cosOne, sinZero, fun _ => 0, fun _ => 0, 0⟩

def objA : ObjCore := ⟨1, 0, 0, 1, 0, 0, 1, 0, 5, 0, 1⟩
def objB : ObjCore := ⟨2, 0, 0, 1, 0, 0, 1, 0, 4, 0, 1⟩
def objC : ObjCore := ⟨3, 0, 0, 1, 0, 0, 1, 0, 3, 0, 1⟩

def cellA : Cell := [(objA, [objB])]
def cellB : Cell := [(objA, [objC])]

/-! ### Lemmas and claim theorems -/

lemma xorBatch_cons (arccosv sqrtv : ℚ → ℚ) (eps : ℚ) (self d : ObjCore)
    (ds : List ObjCore) :
    xorBatch arccosv sqrtv eps self (d :: ds) =
      xorScalar arccosv sqrtv eps self d :: xorBatch arccosv sqrtv eps self ds := by
  simp only [xorBatch, xorScalar, List.map_cons, List.zipWith_cons_cons]
  congr 1
  by_cases h : |d.ra - self.ra| < eps ∧ |d.dec - self.dec| < eps
  · simp [h]
  · simp only [if_neg h]
    congr 1
    by_cases h1 : 1 ≤ d.x_cart * self.x_cart + d.y_cart * self.y_cart + d.z_cart * self.z_cart
    · simp only [if_pos h1]
      norm_num
    · simp [h1]

lemma xorBatch_eq_map (arccosv sqrtv : ℚ → ℚ) (eps : ℚ) (self : ObjCore)
    (data : List ObjCore) :
    xorBatch arccosv sqrtv eps self data =
      data.map (xorScalar arccosv sqrtv eps self) := by
  induction data with
  | nil => rfl
  | cons d ds ih => rw [xorBatch_cons, ih, List.map_cons]

lemma collectCells_of_forall (objsMap : ℕ → Option (List ObjCore)) :
    ∀ l : List ℕ, (∀ p ∈ l, (objsMap p).isSome) →
      collectCells objsMap l = some (l.flatMap (fun p => (objsMap p).getD []))
  | [], _ => rfl
  | p :: ps, h => by
    obtain ⟨os, hos⟩ := Option.isSome_iff_exists.mp (h p (List.mem_cons_self p ps))
    have ih := collectCells_of_forall objsMap ps (fun q hq => h q (List.mem_cons_of_mem p hq))
    simp [collectCells, hos, ih]

lemma filter_zip_map {α : Type} (f : α → ℚ) (p : ℚ → Bool) :
    ∀ l : List α,
      ((l.zip (l.map f)).filter (fun x => p x.2)).map Prod.fst =
        l.filter (fun x => p (f x))
  | [] => rfl
  | a :: l => by
    simp only [List.map_cons, List.zip_cons_cons, List.filter_cons]
    by_cases h : p (f a)
    · simp [h, filter_zip_map f p l]
    · simp [h, filter_zip_map f p l]

lemma maskOf_iff (cfg : CoCfg) (cosv sinv : ℚ → ℚ) (r1 rdm1 w1 : ℚ) (p : PairIn) :
    maskOf cfg cosv sinv r1 rdm1 w1 p = true ↔
      cfg.rp_min ≤ rpOf cfg cosv r1 p ∧ rpOf cfg cosv r1 p < cfg.rp_max ∧
        rtOf sinv rdm1 p < cfg.rt_max ∧ 0 < w12Of w1 p := by
  simp [maskOf]

lemma fast_co_cons_of_not_mask (cfg : CoCfg) (cosv sinv : ℚ → ℚ)
    (z1 r1 rdm1 w1 : ℚ) (p : PairIn) (pairs : List PairIn)
    (h : maskOf cfg cosv sinv r1 rdm1 w1 p = false) :
    fast_co cfg cosv sinv z1 r1 rdm1 w1 (p :: pairs) =
      fast_co cfg cosv sinv z1 r1 rdm1 w1 pairs := by
  simp [fast_co, List.filter_cons, h]

lemma fast_co_cons_of_mask (cfg : CoCfg) (cosv sinv : ℚ → ℚ)
    (z1 r1 rdm1 w1 : ℚ) (p : PairIn) (pairs : List PairIn)
    (h : maskOf cfg cosv sinv r1 rdm1 w1 p = true) (b : ℤ) :
    (fast_co cfg cosv sinv z1 r1 rdm1 w1 (p :: pairs)).we b =
      (fast_co cfg cosv sinv z1 r1 rdm1 w1 pairs).we b +
        (if binOf cfg cosv sinv r1 rdm1 p = b then w12Of w1 p else 0) ∧
    (fast_co cfg cosv sinv z1 r1 rdm1 w1 (p :: pairs)).rp b =
      (fast_co cfg cosv sinv z1 r1 rdm1 w1 pairs).rp b +
        (if binOf cfg cosv sinv r1 rdm1 p = b then rpOf cfg cosv r1 p * w12Of w1 p else 0) ∧
    (fast_co cfg cosv sinv z1 r1 rdm1 w1 (p :: pairs)).rt b =
      (fast_co cfg cosv sinv z1 r1 rdm1 w1 pairs).rt b +
        (if binOf cfg cosv sinv r1 rdm1 p = b then rtOf sinv rdm1 p * w12Of w1 p else 0) ∧
    (fast_co cfg cosv sinv z1 r1 rdm1 w1 (p :: pairs)).z b =
      (fast_co cfg cosv sinv z1 r1 rdm1 w1 pairs).z b +
        (if binOf cfg cosv sinv r1 rdm1 p = b then zOf z1 p * w12Of w1 p else 0) ∧
    (fast_co cfg cosv sinv z1 r1 rdm1 w1 (p :: pairs)).nb b =
      (fast_co cfg cosv sinv z1 r1 rdm1 w1 pairs).nb b +
        (if binOf cfg cosv sinv r1 rdm1 p = b then 1 else 0) := by
  by_cases hb : binOf cfg cosv sinv r1 rdm1 p = b
  · simp [fast_co, List.filter_cons, h, hb, add_comm]
  · simp [fast_co, List.filter_cons, h, hb]

lemma goodAt_zeroGrid (b : ℤ) : GoodAt zeroGrid b := by
  refine ⟨le_refl 0, fun _ => ⟨rfl, rfl, rfl, rfl⟩⟩

lemma goodAt_addGrid {g h : HistGrid} {b : ℤ} (hg : GoodAt g b) (hh : GoodAt h b) :
    GoodAt (addGrid g h) b := by
  refine ⟨add_nonneg hg.1 hh.1, fun h0 => ?_⟩
  have hgz : g.we b = 0 := le_antisymm (by linarith [hh.1, show g.we b + h.we b = 0 from h0]) hg.1
  have hhz : h.we b = 0 := le_antisymm (by linarith [hg.1, show g.we b + h.we b = 0 from h0]) hh.1
  obtain ⟨a1, a2, a3, a4⟩ := hg.2 hgz
  obtain ⟨b1, b2, b3, b4⟩ := hh.2 hhz
  exact ⟨by simp [addGrid, a1, b1], by simp [addGrid, a2, b2],
    by simp [addGrid, a3, b3], by simp [addGrid, a4, b4]⟩

lemma goodAt_fast_co (cfg : CoCfg) (cosv sinv : ℚ → ℚ) (z1 r1 rdm1 w1 : ℚ)
    (pairs : List PairIn) (b : ℤ) :
    GoodAt (fast_co cfg cosv sinv z1 r1 rdm1 w1 pairs) b := by
  constructor
  · refine List.sum_nonneg (fun x hx => ?_)
    obtain ⟨p, hp, rfl⟩ := List.mem_map.mp hx
    have hpk := (List.mem_filter.mp (List.mem_filter.mp hp).1).2
    have := ((maskOf_iff cfg cosv sinv r1 rdm1 w1 p).mp hpk).2.2.2
    exact le_of_lt this
  · intro h0
    have hempty :
        (List.filter (fun p => binOf cfg cosv sinv r1 rdm1 p = b)
          (pairs.filter (maskOf cfg cosv sinv r1 rdm1 w1))) = [] := by
      by_contra hne
      have hpos :
          0 < (((pairs.filter (maskOf cfg cosv sinv r1 rdm1 w1)).filter
            (fun p => binOf cfg cosv sinv r1 rdm1 p = b)).map
              (fun p => w12Of w1 p)).sum := by
        refine List.sum_pos _ (fun x hx => ?_) ?_
        · obtain ⟨p, hp, rfl⟩ := List.mem_map.mp hx
          have hpk := (List.mem_filter.mp (List.mem_filter.mp hp).1).2
          exact ((maskOf_iff cfg cosv sinv r1 rdm1 w1 p).mp hpk).2.2.2
        · simpa using hne
      exact absurd h0 (by simpa [fast_co] using ne_of_gt hpos)
    refine ⟨?_, ?_, ?_, ?_⟩ <;>
      (simp only [fast_co]; rw [hempty]; simp)

lemma goodAt_objGrid (P : CoParams) (o1 : ObjCore) (ne : List ObjCore) (b : ℤ) :
    GoodAt (objGrid P o1 ne) b := by
  unfold objGrid
  by_cases h : ne = []
  · simpa [h] using goodAt_zeroGrid b
  · simpa [h] using goodAt_fast_co P.cfg P.cosv P.sinv o1.z_qso o1.r_comov o1.rdm_comov o1.we _ b

lemma addGrid_zero_left (g : HistGrid) : addGrid zeroGrid g = g := by
  ext b <;> simp [addGrid, zeroGrid]

lemma addGrid_zero_right (g : HistGrid) : addGrid g zeroGrid = g := by
  ext b <;> simp [addGrid, zeroGrid]

lemma addGrid_assoc (g h k : HistGrid) :
    addGrid (addGrid g h) k = addGrid g (addGrid h k) := by
  ext b <;> simp [addGrid, add_assoc]

lemma foldl_addGrid_init {α : Type} (f : α → HistGrid) :
    ∀ (l : List α) (init : HistGrid),
      l.foldl (fun a x => addGrid a (f x)) init =
        addGrid init (l.foldl (fun a x => addGrid a (f x)) zeroGrid)
  | [], init => by simp [addGrid_zero_right]
  | x :: l, init => by
    simp only [List.foldl_cons]
    rw [foldl_addGrid_init f l (addGrid init (f x)),
      foldl_addGrid_init f l (addGrid zeroGrid (f x)),
      addGrid_zero_left, addGrid_assoc]

lemma foldl_addGrid_init' :
    ∀ (l : List HistGrid) (init : HistGrid),
      l.foldl addGrid init = addGrid init (l.foldl addGrid zeroGrid)
  | [], init => by simp [addGrid_zero_right]
  | x :: l, init => by
    simp only [List.foldl_cons]
    rw [foldl_addGrid_init' l (addGrid init x),
      foldl_addGrid_init' l (addGrid zeroGrid x),
      addGrid_zero_left, addGrid_assoc]

lemma rawGrid_eq_foldCG (P : CoParams) (pix : List Cell) :
    rawGrid P pix = pix.foldl (fun acc c => addGrid acc (cellGrid P c)) zeroGrid := by
  unfold rawGrid
  congr 1
  funext acc c
  exact foldl_addGrid_init (fun x => objGrid P x.1 x.2) c acc

lemma rawGrid_nil (P : CoParams) : rawGrid P [] = zeroGrid := rfl

lemma rawGrid_cons (P : CoParams) (c : Cell) (pix : List Cell) :
    rawGrid P (c :: pix) = addGrid (cellGrid P c) (rawGrid P pix) := by
  rw [rawGrid_eq_foldCG, rawGrid_eq_foldCG, List.foldl_cons,
    foldl_addGrid_init (cellGrid P) pix, addGrid_zero_left]

lemma rawGrid_append (P : CoParams) (A B : List Cell) :
    rawGrid P (A ++ B) = addGrid (rawGrid P A) (rawGrid P B) := by
  induction A with
  | nil => simp [rawGrid_nil, addGrid_zero_left]
  | cons c A ih =>
    rw [List.cons_append, rawGrid_cons, rawGrid_cons, ih, addGrid_assoc]

lemma rawGrid_flatten (P : CoParams) (chunks : List (List Cell)) :
    rawGrid P chunks.flatten = (chunks.map (rawGrid P)).foldl addGrid zeroGrid := by
  induction chunks with
  | nil => rfl
  | cons c cs ih =>
    rw [List.flatten_cons, rawGrid_append, ih, List.map_cons, List.foldl_cons,
      foldl_addGrid_init' (cs.map (rawGrid P)) (addGrid zeroGrid (rawGrid P c)),
      addGrid_zero_left]

lemma maskOf_false_of_boundary (cfg : CoCfg) (cosv sinv : ℚ → ℚ)
    (r1 rdm1 w1 : ℚ) (p : PairIn)
    (h : rpOf cfg cosv r1 p = cfg.rp_max ∨ rtOf sinv rdm1 p = cfg.rt_max) :
    maskOf cfg cosv sinv r1 rdm1 w1 p = false := by
  rw [Bool.eq_false_iff]
  intro hmt
  obtain ⟨h1, h2, h3, h4⟩ := (maskOf_iff cfg cosv sinv r1 rdm1 w1 p).mp hmt
  rcases h with h | h
  · rw [h] at h2; exact absurd h2 (lt_irrefl _)
  · rw [h] at h3; exact absurd h3 (lt_irrefl _)

lemma goodAt_foldCG (P : CoParams) (pix : List Cell) (b : ℤ) :
    GoodAt (rawGrid P pix) b := by
  induction pix with
  | nil => exact goodAt_zeroGrid b
  | cons c pix ih =>
    rw [rawGrid_cons]
    refine goodAt_addGrid ?_ ih
    unfold cellGrid
    induction c with
    | nil => exact goodAt_zeroGrid b
    | cons x xs ihc =>
      rw [List.foldl_cons, foldl_addGrid_init (fun x => objGrid P x.1 x.2) xs _,
        addGrid_zero_left]
      exact goodAt_addGrid (goodAt_objGrid P x.1 x.2 b)
        (by simpa [cellGrid] using ihc)

/-- Claim C1: in `fast_co`, a pair is accumulated into the histogram if and
only if `rp_min ≤ rp`, `rp < rp_max`, `rt < rt_max` and `w12 > 0`; a pair
with `rp` exactly `rp_max` or `rt` exactly `rt_max` is excluded from all
bins by the strict mask. -/
theorem C1_selection_mask (cfg : CoCfg) (cosv sinv : ℚ → ℚ)
    (z1 r1 rdm1 w1 : ℚ) (p : PairIn) (pairs : List PairIn) :
    (maskOf cfg cosv sinv r1 rdm1 w1 p = true ↔
      cfg.rp_min ≤ rpOf cfg cosv r1 p ∧ rpOf cfg cosv r1 p < cfg.rp_max ∧
        rtOf sinv rdm1 p < cfg.rt_max ∧ 0 < w12Of w1 p) ∧
    (maskOf cfg cosv sinv r1 rdm1 w1 p = false →
      fast_co cfg cosv sinv z1 r1 rdm1 w1 (p :: pairs) =
        fast_co cfg cosv sinv z1 r1 rdm1 w1 pairs) ∧
    (maskOf cfg cosv sinv r1 rdm1 w1 p = true →
      (fast_co cfg cosv sinv z1 r1 rdm1 w1 (p :: pairs)).nb
          (binOf cfg cosv sinv r1 rdm1 p) =
        (fast_co cfg cosv sinv z1 r1 rdm1 w1 pairs).nb
          (binOf cfg cosv sinv r1 rdm1 p) + 1) ∧
    ((rpOf cfg cosv r1 p = cfg.rp_max ∨ rtOf sinv rdm1 p = cfg.rt_max) →
      fast_co cfg cosv sinv z1 r1 rdm1 w1 (p :: pairs) =
        fast_co cfg cosv sinv z1 r1 rdm1 w1 pairs) := by
  refine ⟨maskOf_iff cfg cosv sinv r1 rdm1 w1 p, ?_, ?_, ?_⟩
  · exact fast_co_cons_of_not_mask cfg cosv sinv z1 r1 rdm1 w1 p pairs
  · intro hm
    have := (fast_co_cons_of_mask cfg cosv sinv z1 r1 rdm1 w1 p pairs hm
      (binOf cfg cosv sinv r1 rdm1 p)).2.2.2.2
    simpa using this
  · intro h
    exact fast_co_cons_of_not_mask cfg cosv sinv z1 r1 rdm1 w1 p pairs
      (maskOf_false_of_boundary cfg cosv sinv r1 rdm1 w1 p h)

/-- Witness for C1: a concrete pair that passes the mask and raises the raw
count of its bin by one. -/
theorem C1_selection_mask_witness :
    maskOf cfgS cosOne sinZero 1 0 1 pairS = true ∧
    (fast_co cfgS cosOne sinZero 0 1 0 1 (pairS :: [])).nb
        (binOf cfgS cosOne sinZero 1 0 pairS) =
      (fast_co cfgS cosOne sinZero 0 1 0 1 []).nb
        (binOf cfgS cosOne sinZero 1 0 pairS) + 1 := by
  have hm : maskOf cfgS cosOne sinZero 1 0 1 pairS = true := by
    norm_num [maskOf, rpOf, rtOf, w12Of, cfgS, cosOne, sinZero, pairS]
  exact ⟨hm, (C1_selection_mask cfgS cosOne sinZero 0 1 0 1 pairS []).2.2.1 hm⟩

/-- Claim C2: the per-pair geometry of `fast_co`: `rp = (r1-r2)*cos(ang/2)`
with absolute value exactly when the run is same-catalog or the kind is
DR/RD, `rt = (rdm1+rdm2)*sin(ang/2)`, pair redshift `(z1+z2)/2`, pair
weight `w1*w2`. -/
theorem C2_pair_geometry (cfg : CoCfg) (cosv sinv : ℚ → ℚ)
    (z1 r1 rdm1 w1 : ℚ) (p : PairIn) :
    ((cfg.x_correlation = false ∨ cfg.type_corr = "DR" ∨ cfg.type_corr = "RD") →
      rpOf cfg cosv r1 p = |(r1 - p.r2) * cosv (p.ang / 2)|) ∧
    ((cfg.x_correlation = true ∧ cfg.type_corr ≠ "DR" ∧ cfg.type_corr ≠ "RD") →
      rpOf cfg cosv r1 p = (r1 - p.r2) * cosv (p.ang / 2)) ∧
    rtOf sinv rdm1 p = (rdm1 + p.rdm2) * sinv (p.ang / 2) ∧
    zOf z1 p = (z1 + p.z2) / 2 ∧
    w12Of w1 p = w1 * p.w2 := by
  refine ⟨fun h => ?_, fun h => ?_, rfl, rfl, rfl⟩
  · rw [rpOf, if_pos h]
  · rw [rpOf, if_neg]
    push_neg
    exact ⟨by simp [h.1], h.2.1, h.2.2⟩

/-- Witness for C2: a same-catalog configuration takes the absolute value,
and a genuine cross configuration keeps the sign. -/
theorem C2_pair_geometry_witness :
    (cfgS.x_correlation = false ∨ cfgS.type_corr = "DR" ∨ cfgS.type_corr = "RD") ∧
    rpOf cfgS cosOne 1 pairS = |(1 - pairS.r2) * cosOne (pairS.ang / 2)| := by
  have h : cfgS.x_correlation = false ∨ cfgS.type_corr = "DR" ∨ cfgS.type_corr = "RD" :=
    Or.inl rfl
  exact ⟨h, (C2_pair_geometry cfgS cosOne sinZero 0 1 0 1 pairS).1 h⟩

/-- Claim C4: the batch angular-separation operator applies, per candidate,
arccos of the clamped dot product, except that candidates inside the
small-angle cutoff in both coordinates get the flat-sky value; the
flat-sky branch fires exactly on that condition. -/
theorem C4_batch_angular_separation (arccosv sqrtv : ℚ → ℚ) (eps : ℚ)
    (self : ObjCore) (data : List ObjCore) :
    xorBatch arccosv sqrtv eps self data = data.map (fun d =>
      if |d.ra - self.ra| < eps ∧ |d.dec - self.dec| < eps then
        sqrtv ((d.dec - self.dec) ^ 2 + (self.cos_dec * (d.ra - self.ra)) ^ 2)
      else
        arccosv
          (if 1 ≤ d.x_cart * self.x_cart + d.y_cart * self.y_cart + d.z_cart * self.z_cart
            then 1
            else if d.x_cart * self.x_cart + d.y_cart * self.y_cart + d.z_cart * self.z_cart ≤ -1
              then -1
              else d.x_cart * self.x_cart + d.y_cart * self.y_cart + d.z_cart * self.z_cart)) := by
  rw [xorBatch_eq_map]
  rfl

/-- Claim C9: the scalar branch of the angular-separation operator agrees
with the batch branch on a one-element batch. -/
theorem C9_scalar_batch_agree (arccosv sqrtv : ℚ → ℚ) (eps : ℚ)
    (self d : ObjCore) :
    xorBatch arccosv sqrtv eps self [d] = [xorScalar arccosv sqrtv eps self d] := by
  rw [xorBatch_cons]
  rfl

/-- Claim C3 (amended): a pair passing the selection mask deposits its five
contributions into exactly the flat bin `bt + ntb*bp`, where
`bp = floor((rp - rp_min)/(rp_max - rp_min)*npb)` as claimed, but
`bt` is the integer truncation toward zero of `rt/rt_max*ntb` (numpy
`astype(int)`), which agrees with the claimed floor exactly when the scaled
transverse value is nonnegative; no other bin receives any contribution
from the pair. -/
theorem C3_bin_deposit (cfg : CoCfg) (cosv sinv : ℚ → ℚ)
    (z1 r1 rdm1 w1 : ℚ) (p : PairIn) (pairs : List PairIn)
    (h : maskOf cfg cosv sinv r1 rdm1 w1 p = true) :
    bpOf cfg cosv r1 p =
      ⌊(rpOf cfg cosv r1 p - cfg.rp_min) / (cfg.rp_max - cfg.rp_min) * cfg.npb⌋ ∧
    btOf cfg sinv rdm1 p = truncQ (rtOf sinv rdm1 p / cfg.rt_max * cfg.ntb) ∧
    (0 ≤ rtOf sinv rdm1 p / cfg.rt_max * cfg.ntb →
      btOf cfg sinv rdm1 p = ⌊rtOf sinv rdm1 p / cfg.rt_max * cfg.ntb⌋) ∧
    binOf cfg cosv sinv r1 rdm1 p =
      btOf cfg sinv rdm1 p + cfg.ntb * bpOf cfg cosv r1 p ∧
    (∀ b,
      (fast_co cfg cosv sinv z1 r1 rdm1 w1 (p :: pairs)).we b =
        (fast_co cfg cosv sinv z1 r1 rdm1 w1 pairs).we b +
          (if binOf cfg cosv sinv r1 rdm1 p = b then w12Of w1 p else 0) ∧
      (fast_co cfg cosv sinv z1 r1 rdm1 w1 (p :: pairs)).rp b =
        (fast_co cfg cosv sinv z1 r1 rdm1 w1 pairs).rp b +
          (if binOf cfg cosv sinv r1 rdm1 p = b then
            rpOf cfg cosv r1 p * w12Of w1 p else 0) ∧
      (fast_co cfg cosv sinv z1 r1 rdm1 w1 (p :: pairs)).rt b =
        (fast_co cfg cosv sinv z1 r1 rdm1 w1 pairs).rt b +
          (if binOf cfg cosv sinv r1 rdm1 p = b then
            rtOf sinv rdm1 p * w12Of w1 p else 0) ∧
      (fast_co cfg cosv sinv z1 r1 rdm1 w1 (p :: pairs)).z b =
        (fast_co cfg cosv sinv z1 r1 rdm1 w1 pairs).z b +
          (if binOf cfg cosv sinv r1 rdm1 p = b then
            zOf z1 p * w12Of w1 p else 0) ∧
      (fast_co cfg cosv sinv z1 r1 rdm1 w1 (p :: pairs)).nb b =
        (fast_co cfg cosv sinv z1 r1 rdm1 w1 pairs).nb b +
          (if binOf cfg cosv sinv r1 rdm1 p = b then 1 else 0)) := by
  refine ⟨rfl, rfl, fun hq => ?_, rfl, fun b =>
    fast_co_cons_of_mask cfg cosv sinv z1 r1 rdm1 w1 p pairs h b⟩
  rw [btOf, truncQ, if_pos hq]

/-- Witness for C3: a concrete masked pair deposits into its own flat bin
and into no other. -/
theorem C3_bin_deposit_witness :
    maskOf cfgS cosOne sinZero 1 0 1 pairS = true ∧
    (0 ≤ rtOf sinZero 0 pairS / cfgS.rt_max * cfgS.ntb →
      btOf cfgS sinZero 0 pairS = ⌊rtOf sinZero 0 pairS / cfgS.rt_max * cfgS.ntb⌋) ∧
    ((fast_co cfgS cosOne sinZero 0 1 0 1 (pairS :: [])).we 0 =
      (fast_co cfgS cosOne sinZero 0 1 0 1 []).we 0 +
        (if binOf cfgS cosOne sinZero 1 0 pairS = 0 then w12Of 1 pairS else 0)) := by
  have hm : maskOf cfgS cosOne sinZero 1 0 1 pairS = true := by
    norm_num [maskOf, rpOf, rtOf, w12Of, cfgS, cosOne, sinZero, pairS]
  have h := C3_bin_deposit cfgS cosOne sinZero 0 1 0 1 pairS [] hm
  exact ⟨hm, h.2.2.1, (h.2.2.2.2 0).1⟩

/-- Counterexample to C3 as stated: with `cos(ang/2) = 3/5`,
`sin(ang/2) = 4/5`, `r1 - r2 = 5/3` and `rdm1 + rdm2 = -5/8`, the pair has
`rp = 1` and `rt = -1/2`, passes the selection mask, yet its deposit lands
in flat bin 2 (truncation toward zero of the negative scaled transverse
value) while the claimed floor-based flat bin 1 receives nothing. -/
theorem C3_counterexample :
    maskOf cfgS cosPyth sinPyth (5/3) 0 1 pairNeg = true ∧
    ⌊rtOf sinPyth 0 pairNeg / cfgS.rt_max * cfgS.ntb⌋ +
      cfgS.ntb * bpOf cfgS cosPyth (5/3) pairNeg = 1 ∧
    (fast_co cfgS cosPyth sinPyth 0 (5/3) 0 1 [pairNeg]).nb 1 = 0 ∧
    (fast_co cfgS cosPyth sinPyth 0 (5/3) 0 1 [pairNeg]).nb 2 = 1 := by
  refine ⟨?_, ?_, ?_, ?_⟩
  · norm_num [maskOf, rpOf, rtOf, w12Of, cfgS, cosPyth, sinPyth, pairNeg]
  · norm_num [rtOf, bpOf, rpOf, cfgS, cosPyth, sinPyth, pairNeg]
  · norm_num [fast_co, maskOf, binOf, btOf, bpOf, truncQ, rpOf, rtOf, w12Of,
      cfgS, cosPyth, sinPyth, pairNeg, List.filter_cons, List.filter_nil,
      decide_eq_true_eq]
    rw [show (⌈-((1:ℚ)/2)⌉ : ℤ) = 0 from by norm_num]
    norm_num
  · norm_num [fast_co, maskOf, binOf, btOf, bpOf, truncQ, rpOf, rtOf, w12Of,
      cfgS, cosPyth, sinPyth, pairNeg, List.filter_cons, List.filter_nil,
      decide_eq_true_eq]

lemma fill_neighs_one_eq (arccosv sqrtv : ℚ → ℚ) (eps angmax zcmin zcmax : ℚ)
    (objsMap : ℕ → Option (List ObjCore)) (queried : List ℕ) (o1 : ObjCore) :
    fill_neighs_one arccosv sqrtv eps angmax zcmin zcmax objsMap queried o1 =
      some (((((queried.filter (fun p => (objsMap p).isSome)).flatMap
          (fun p => (objsMap p).getD [])).filter
            (fun o2 => o1.thingid ≠ o2.thingid)).filter
              (fun o2 => xorScalar arccosv sqrtv eps o1 o2 < angmax)).filter
                (fun o2 => (o2.z_qso + o1.z_qso) / 2 ≥ zcmin ∧
                  (o2.z_qso + o1.z_qso) / 2 < zcmax)) := by
  have hnp : ∀ p ∈ queried.filter (fun p => (objsMap p).isSome), (objsMap p).isSome :=
    fun p hp => (List.mem_filter.mp hp).2
  have hcc := collectCells_of_forall objsMap _ hnp
  simp only [fill_neighs_one, hcc]
  rw [xorBatch_eq_map,
    filter_zip_map (xorScalar arccosv sqrtv eps o1) (fun q => decide (q < angmax))]

lemma mem_cells_iff (objsMap : ℕ → Option (List ObjCore)) (queried : List ℕ)
    (o2 : ObjCore) :
    (o2 ∈ (queried.filter (fun p => (objsMap p).isSome)).flatMap
        (fun p => (objsMap p).getD [])) ↔
      ∃ p ∈ queried, ∃ l, objsMap p = some l ∧ o2 ∈ l := by
  simp only [List.mem_flatMap, List.mem_filter]
  constructor
  · rintro ⟨p, ⟨hpq, hps⟩, hmem⟩
    obtain ⟨l, hl⟩ := Option.isSome_iff_exists.mp hps
    exact ⟨p, hpq, l, hl, by simpa [hl] using hmem⟩
  · rintro ⟨p, hpq, l, hl, hml⟩
    exact ⟨p, ⟨hpq, by simp [hl]⟩, by simpa [hl] using hml⟩

/-- Claim C5: after the neighbor-filling routine runs for `o1`, the cached
list holds exactly the objects of the target catalog's queried cells with a
different `thingid`, angular separation strictly below `angmax`, and mean
pair redshift inside the `[z_cut_min, z_cut_max)` window; `o1` is never its
own neighbor, and the routine always returns a list (possibly empty) rather
than failing. -/
theorem C5_neighbor_membership (arccosv sqrtv : ℚ → ℚ)
    (eps angmax zcmin zcmax : ℚ) (objsMap : ℕ → Option (List ObjCore))
    (queried : List ℕ) (o1 : ObjCore) :
    ∃ res,
      fill_neighs_one arccosv sqrtv eps angmax zcmin zcmax objsMap queried o1 =
        some res ∧
      (∀ o2, o2 ∈ res ↔
        ((∃ p ∈ queried, ∃ l, objsMap p = some l ∧ o2 ∈ l) ∧
          o1.thingid ≠ o2.thingid ∧
          xorScalar arccosv sqrtv eps o1 o2 < angmax ∧
          zcmin ≤ (o1.z_qso + o2.z_qso) / 2 ∧ (o1.z_qso + o2.z_qso) / 2 < zcmax)) ∧
      o1 ∉ res := by
  refine ⟨_, fill_neighs_one_eq arccosv sqrtv eps angmax zcmin zcmax objsMap queried o1,
    fun o2 => ?_, ?_⟩
  · simp only [List.mem_filter, decide_eq_true_eq, mem_cells_iff]
    constructor
    · rintro ⟨⟨⟨hmem, htid⟩, hang⟩, hz1, hz2⟩
      refine ⟨hmem, htid, hang, ?_, ?_⟩
      · rw [add_comm o1.z_qso o2.z_qso]; exact hz1
      · rw [add_comm o1.z_qso o2.z_qso]; exact hz2
    · rintro ⟨hmem, htid, hang, hz1, hz2⟩
      refine ⟨⟨⟨hmem, htid⟩, hang⟩, ?_, ?_⟩
      · rw [add_comm o2.z_qso o1.z_qso]; exact hz1
      · rw [add_comm o2.z_qso o1.z_qso]; exact hz2
  · intro hself
    have htid := (List.mem_filter.mp
      (List.mem_filter.mp (List.mem_filter.mp hself).1).1).2
    simp at htid

/-- Claim C10: the neighbor-filling routines drop every queried cell id
that is absent from the target catalog mapping before any lookup, so the
lookups cannot fail (the result is always `some`) and absent cells
contribute no candidates (restricting the query to the present cells gives
the same result). -/
theorem C10_absent_cells_filtered (arccosv sqrtv : ℚ → ℚ)
    (eps angmax zcmin zcmax : ℚ) (objsMap : ℕ → Option (List ObjCore))
    (queried : List ℕ) (o1 : ObjCore) :
    (fill_neighs_one arccosv sqrtv eps angmax zcmin zcmax objsMap queried o1).isSome
      = true ∧
    fill_neighs_one arccosv sqrtv eps angmax zcmin zcmax objsMap queried o1 =
      fill_neighs_one arccosv sqrtv eps angmax zcmin zcmax objsMap
        (queried.filter (fun p => (objsMap p).isSome)) o1 := by
  constructor
  · rw [fill_neighs_one_eq]; rfl
  · rw [fill_neighs_one_eq, fill_neighs_one_eq]
    have hff : (queried.filter (fun p => (objsMap p).isSome)).filter
        (fun p => (objsMap p).isSome) =
        queried.filter (fun p => (objsMap p).isSome) := by
      rw [List.filter_filter]
      simp
    rw [hff]

lemma co_we_eq_raw (P : CoParams) (pix : List Cell) : (co P pix).we = (rawGrid P pix).we := rfl

lemma co_nb_eq_raw (P : CoParams) (pix : List Cell) : (co P pix).nb = (rawGrid P pix).nb := rfl

lemma foldl_co_we_nb (P : CoParams) :
    ∀ (chunks : List (List Cell)) (b : ℤ),
      ((chunks.map (co P)).foldl addGrid zeroGrid).we b =
        ((chunks.map (rawGrid P)).foldl addGrid zeroGrid).we b ∧
      ((chunks.map (co P)).foldl addGrid zeroGrid).nb b =
        ((chunks.map (rawGrid P)).foldl addGrid zeroGrid).nb b
  | [], _ => ⟨rfl, rfl⟩
  | c :: cs, b => by
    have ih := foldl_co_we_nb P cs b
    simp only [List.map_cons, List.foldl_cons]
    rw [foldl_addGrid_init' (cs.map (co P)) (addGrid zeroGrid (co P c)),
      foldl_addGrid_init' (cs.map (rawGrid P)) (addGrid zeroGrid (rawGrid P c))]
    constructor
    · show (addGrid zeroGrid (co P c)).we b + _ = (addGrid zeroGrid (rawGrid P c)).we b + _
      rw [ih.1]
      simp [addGrid, zeroGrid, co_we_eq_raw]
    · show (addGrid zeroGrid (co P c)).nb b + _ = (addGrid zeroGrid (rawGrid P c)).nb b + _
      rw [ih.2]
      simp [addGrid, zeroGrid, co_nb_eq_raw]

/-- Claim C6 (amended): the accumulation performed by `co` before its final
normalization is chunk-independent: over any disjoint chunk layout,
merging the per-chunk raw accumulator grids by element-wise addition
equals the raw grid of a single pass over all cells; the `we` and `nb`
arrays actually returned by `co` merge the same way. The `rp`/`rt`/`z`
arrays returned by `co` are already normalized per chunk, so element-wise
addition of `co`'s returned grids does not reproduce a single invocation
(see the counterexample). -/
theorem C6_chunk_merge (P : CoParams) (chunks : List (List Cell)) :
    rawGrid P chunks.flatten = (chunks.map (rawGrid P)).foldl addGrid zeroGrid ∧
    ∀ b, (co P chunks.flatten).we b = ((chunks.map (co P)).foldl addGrid zeroGrid).we b ∧
      (co P chunks.flatten).nb b = ((chunks.map (co P)).foldl addGrid zeroGrid).nb b := by
  refine ⟨rawGrid_flatten P chunks, fun b => ?_⟩
  have h := foldl_co_we_nb P chunks b
  rw [h.1, h.2, co_we_eq_raw, co_nb_eq_raw, rawGrid_flatten P chunks]
  exact ⟨rfl, rfl⟩

/-- Counterexample to C6 as stated: two one-cell chunks whose single pairs
share a bin. Each per-chunk `co` returns normalized means 1 and 2 for that
bin, whose element-wise sum is 3, while a single invocation of `co` over
both cells returns the weighted mean 3/2. -/
theorem C6_counterexample :
    (addGrid (co pCo [cellA]) (co pCo [cellB])).rp 0 ≠ (co pCo [cellA, cellB]).rp 0 := by
  have h1 : (co pCo [cellA]).rp 0 = 1 := by
    norm_num [co, rawGrid, cellA, objA, objB, pCo, objGrid, addGrid, zeroGrid,
      xorBatch, fast_co, maskOf, binOf, btOf, bpOf, truncQ, rpOf, rtOf, w12Of, zOf,
      cosOne, sinZero, List.filter_cons, List.filter_nil, decide_eq_true_eq]
  have h2 : (co pCo [cellB]).rp 0 = 2 := by
    norm_num [co, rawGrid, cellB, objA, objC, pCo, objGrid, addGrid, zeroGrid,
      xorBatch, fast_co, maskOf, binOf, btOf, bpOf, truncQ, rpOf, rtOf, w12Of, zOf,
      cosOne, sinZero, List.filter_cons, List.filter_nil, decide_eq_true_eq]
  have h3 : (co pCo [cellA, cellB]).rp 0 = 3/2 := by
    norm_num [co, rawGrid, cellA, cellB, objA, objB, objC, pCo, objGrid, addGrid, zeroGrid,
      xorBatch, fast_co, maskOf, binOf, btOf, bpOf, truncQ, rpOf, rtOf, w12Of, zOf,
      cosOne, sinZero, List.filter_cons, List.filter_nil, decide_eq_true_eq]
  show (co pCo [cellA]).rp 0 + (co pCo [cellB]).rp 0 ≠ _
  rw [h1, h2, h3]
  norm_num

/-- Claim C7: in the normalized histogram returned by `co`, every bin with
positive weight sum holds the weighted means (accumulated `w*rp`, `w*rt`,
`w*z` sums divided by the weight sum), and every bin with zero weight sum
is left at its raw zero values rather than being an error. -/
theorem C7_normalization (P : CoParams) (pix : List Cell) (b : ℤ) :
    (0 < (rawGrid P pix).we b →
      (co P pix).rp b = (rawGrid P pix).rp b / (rawGrid P pix).we b ∧
      (co P pix).rt b = (rawGrid P pix).rt b / (rawGrid P pix).we b ∧
      (co P pix).z b = (rawGrid P pix).z b / (rawGrid P pix).we b) ∧
    ((rawGrid P pix).we b = 0 →
      (co P pix).rp b = 0 ∧ (co P pix).rt b = 0 ∧ (co P pix).z b = 0 ∧
      (co P pix).we b = 0 ∧ (co P pix).nb b = 0) := by
  constructor
  · intro hpos
    refine ⟨?_, ?_, ?_⟩ <;> simp [co, hpos]
  · intro hz
    obtain ⟨h1, h2, h3, h4⟩ := (goodAt_foldCG P pix b).2 hz
    have hn : ¬ (0 < (rawGrid P pix).we b) := by rw [hz]; exact lt_irrefl 0
    refine ⟨?_, ?_, ?_, ?_, ?_⟩ <;> simp [co, hn, h1, h2, h3, h4, hz]

/-- Witness for C7: a bin populated by exactly the two pairs `(rp = 1, w = 1)`
and `(rp = 2, w = 1)` is normalized to the weighted mean of its sums. -/
theorem C7_normalization_witness :
    0 < (rawGrid pCo [cellA, cellB]).we 0 ∧
    ((co pCo [cellA, cellB]).rp 0 =
        (rawGrid pCo [cellA, cellB]).rp 0 / (rawGrid pCo [cellA, cellB]).we 0 ∧
      (co pCo [cellA, cellB]).rt 0 =
        (rawGrid pCo [cellA, cellB]).rt 0 / (rawGrid pCo [cellA, cellB]).we 0 ∧
      (co pCo [cellA, cellB]).z 0 =
        (rawGrid pCo [cellA, cellB]).z 0 / (rawGrid pCo [cellA, cellB]).we 0) := by
  have hpos : 0 < (rawGrid pCo [cellA, cellB]).we 0 := by
    norm_num [rawGrid, cellA, cellB, objA, objB, objC, pCo, objGrid, addGrid, zeroGrid,
      xorBatch, fast_co, maskOf, binOf, btOf, bpOf, truncQ, rpOf, rtOf, w12Of, zOf,
      cosOne, sinZero, List.filter_cons, List.filter_nil, decide_eq_true_eq]
  exact ⟨hpos, (C7_normalization pCo [cellA, cellB] 0).1 hpos⟩

/-- Claim C8: every constructed tracer object has
`x_cart = cos(ra)*cos(dec)`, `y_cart = sin(ra)*cos(dec)`,
`z_cart = sin(dec)` and `cos_dec = cos(dec)`, hence a unit-norm cartesian
vector; the only mutation the pair-counting pass performs on an object
(the neighbor-list update) leaves all of these fields unchanged. -/
theorem C8_construction_invariants (thingid : ℤ) (ra dec z_qso : ℝ)
    (plate mjd fiberid : ℤ) :
    (mkQso thingid ra dec z_qso plate mjd fiberid).x_cart = Real.cos ra * Real.cos dec ∧
    (mkQso thingid ra dec z_qso plate mjd fiberid).y_cart = Real.sin ra * Real.cos dec ∧
    (mkQso thingid ra dec z_qso plate mjd fiberid).z_cart = Real.sin dec ∧
    (mkQso thingid ra dec z_qso plate mjd fiberid).cos_dec = Real.cos dec ∧
    (mkQso thingid ra dec z_qso plate mjd fiberid).x_cart ^ 2 +
      (mkQso thingid ra dec z_qso plate mjd fiberid).y_cart ^ 2 +
      (mkQso thingid ra dec z_qso plate mjd fiberid).z_cart ^ 2 = 1 ∧
    (∀ (s : QsoR × List QsoR) (ne : List QsoR), (setNeighs s ne).1 = s.1) := by
  refine ⟨rfl, rfl, rfl, rfl, ?_, fun s ne => rfl⟩
  show (Real.cos ra * Real.cos dec) ^ 2 + (Real.sin ra * Real.cos dec) ^ 2 +
    Real.sin dec ^ 2 = 1
  have h1 := Real.sin_sq_add_cos_sq ra
  have h2 := Real.sin_sq_add_cos_sq dec
  nlinarith [h1, h2]
